import Mathlib

/-!
Shallow embedding of the `TimeBankFHE` Solidity contract
(`src/frontend/web/src/App.tsx`, contract source appended after the React
component, lines 820-1052).

Addresses, ciphertext handles (`euint32`), `bytes32` words and request ids
are modelled as `Nat`; `bytes` payloads as `List Nat` (one entry per byte).
Solidity mappings become total functions with pointwise update.  Every
external entry point is a branch of one step function returning
`Except Err (State × events)`: an `Except.error` models a revert, which in
the EVM rolls back every state write, so an erroneous step produces no new
state.  The FHE library and keccak are external services; they are embedded
as an abstract record of pure functions (`FHEModel`), and theorems quantify
over it.  `FHE.requestDecryption` returns a fresh id assigned by the FHE
gateway; the gateway's id counter is carried in the state
(`oracleNextRequestId`) and incremented on each request, matching the
oracle interface of the design (each request gets its own id).
-/

namespace TimeBankFHE

/-- Pointwise update of a `Nat`-keyed map, mirroring a Solidity mapping
assignment `m[k] = v`. -/
def upd {α : Type} (f : Nat → α) (k : Nat) (v : α) : Nat → α :=
  fun x => if x = k then v else f x

/-- The external FHE / crypto surface consumed by the contract
(`FHE.asEuint32`, `FHE.add`, `FHE.isInitialized`, `FHE.toBytes32`,
`keccak256(abi.encode(cts, address(this)))`, `FHE.checkSignatures`),
embedded as pure functions over `Nat` handles. -/
structure FHEModel where
  asEuint32 : Nat → Nat
  addH : Nat → Nat → Nat
  isInitialized : Nat → Bool
  toBytes32 : Nat → Nat
  keccakHash : List Nat → Nat → Nat
  checkSignatures : Nat → List Nat → List Nat → Bool

/-- `struct DecryptionContext { uint256 batchId; bytes32 stateHash; bool processed; }` -/
structure DecryptionContext where
  batchId : Nat
  stateHash : Nat
  processed : Bool
  deriving DecidableEq

instance : Inhabited DecryptionContext := ⟨⟨0, 0, false⟩⟩

/-- The contract's storage, plus `selfAddr` (the constant `address(this)`)
and the FHE gateway's fresh-request-id counter. -/
structure State where
  owner : Nat
  isProvider : Nat → Bool
  paused : Bool
  cooldownSeconds : Nat
  lastSubmissionTime : Nat → Nat
  lastDecryptionRequestTime : Nat → Nat
  currentBatchId : Nat
  isBatchClosed : Nat → Bool
  decryptionContexts : Nat → DecryptionContext
  selfAddr : Nat
  oracleNextRequestId : Nat

/-- The contract's events. -/
inductive Event where
  | OwnershipTransferred (previousOwner newOwner : Nat)
  | ProviderAdded (provider : Nat)
  | ProviderRemoved (provider : Nat)
  | Paused (account : Nat)
  | Unpaused (account : Nat)
  | CooldownSecondsSet (oldCooldownSeconds newCooldownSeconds : Nat)
  | BatchOpened (batchId : Nat)
  | BatchClosed (batchId : Nat)
  | TimeDeposited (depositor batchId encryptedHours : Nat)
  | TimeWithdrawn (withdrawer batchId encryptedHours : Nat)
  | DecryptionRequested (requestId batchId : Nat)
  | DecryptionCompleted (requestId batchId totalDeposited totalWithdrawn : Nat)
  deriving DecidableEq

/-- The contract's revert reasons.  `BatchNotClosed` models the string
revert `revert("Batch not closed")`; `InvalidProof` models a revert raised
inside `FHE.checkSignatures`. -/
inductive Err where
  | NotOwner
  | NotProvider
  | PausedError
  | CooldownActive
  | BatchClosedError
  | BatchNotClosed
  | ReplayError
  | StateMismatchError
  | InvalidProof
  | InvalidDecryption
  deriving DecidableEq

/-- The external entry points, each carrying `msg.sender` (and
`block.timestamp` where the body reads it). -/
inductive Op where
  | transferOwnership (sender newOwner : Nat)
  | addProvider (sender provider : Nat)
  | removeProvider (sender provider : Nat)
  | pause (sender : Nat)
  | unpause (sender : Nat)
  | setCooldownSeconds (sender newCooldownSeconds : Nat)
  | openNewBatch (sender : Nat)
  | closeCurrentBatch (sender : Nat)
  | depositTime (sender now amount : Nat)
  | withdrawTime (sender now amount : Nat)
  | requestBatchSummary (sender now batchId : Nat)
  | myCallback (requestId : Nat) (cleartexts proof : List Nat)

/-- The local totals computed by `requestBatchSummary` lines 968-990: both
locals start as the default (zero) handle, each is replaced by
`FHE.asEuint32(0)` when uninitialized, and when neither was initialized
`totalDeposits` additionally becomes `FHE.add(totalDeposits, FHE.asEuint32(0))`. -/
def requestTotals (I : FHEModel) : Nat × Nat :=
  let td0 : Nat := 0
  let tw0 : Nat := 0
  let p1 := if I.isInitialized td0 then (td0, true) else (I.asEuint32 0, false)
  let p2 := if I.isInitialized tw0 then (tw0, true) else (I.asEuint32 0, false)
  let initialized := p1.2 || p2.2
  let td := if initialized then p1.1 else I.addH p1.1 (I.asEuint32 0)
  (td, p2.1)

/-- The ciphertext array built by `requestBatchSummary` lines 993-995:
`cts[0] = toBytes32(totalDeposits); cts[1] = toBytes32(totalWithdrawals)` —
deposits first, withdrawals second. -/
def requestCts (I : FHEModel) : List Nat :=
  [I.toBytes32 (requestTotals I).1, I.toBytes32 (requestTotals I).2]

/-- `_hashCiphertexts` applied to the request-side array:
`keccak256(abi.encode(cts, address(this)))`. -/
def requestStateHash (I : FHEModel) (selfAddr : Nat) : Nat :=
  I.keccakHash (requestCts I) selfAddr

/-- The local totals recomputed by `myCallback` lines 1011-1016: both locals
start as the default handle; unlike the request side, neither is replaced by
`FHE.asEuint32(0)`, and only `totalDeposits` gets the
`FHE.add(totalDeposits, FHE.asEuint32(0))` treatment when neither was
initialized. -/
def callbackTotals (I : FHEModel) : Nat × Nat :=
  let td0 : Nat := 0
  let tw0 : Nat := 0
  let initialized := I.isInitialized td0 || I.isInitialized tw0
  let td := if initialized then td0 else I.addH td0 (I.asEuint32 0)
  (td, tw0)

/-- The ciphertext array rebuilt by `myCallback` lines 1018-1020, in the
same `[deposits, withdrawals]` order as the request side. -/
def callbackCts (I : FHEModel) : List Nat :=
  [I.toBytes32 (callbackTotals I).1, I.toBytes32 (callbackTotals I).2]

/-- `_hashCiphertexts` applied to the callback-side array. -/
def callbackStateHash (I : FHEModel) (selfAddr : Nat) : Nat :=
  I.keccakHash (callbackCts I) selfAddr

/-- Big-endian decoding of a byte list into a natural number, modelling
`uint32(bytes4(...))` on a 4-byte slice. -/
def decodeBE (bs : List Nat) : Nat :=
  bs.foldl (fun acc b => acc * 256 + b % 256) 0

/-- One external call, with revert semantics: `Except.error` rolls back
everything, `Except.ok` carries the new state and the emitted events.
Each branch is a line-by-line transcription of the corresponding function
of the contract, with Solidity modifiers expanded in declaration order. -/
def stepOp (I : FHEModel) (s : State) : Op → Except Err (State × List Event)
  | .transferOwnership sender newOwner =>
      if sender ≠ s.owner then .error .NotOwner
      else .ok ({ s with owner := newOwner },
                [.OwnershipTransferred s.owner newOwner])
  | .addProvider sender provider =>
      if sender ≠ s.owner then .error .NotOwner
      else if s.isProvider provider then .ok (s, [])
      else .ok ({ s with isProvider := upd s.isProvider provider true },
                [.ProviderAdded provider])
  | .removeProvider sender provider =>
      if sender ≠ s.owner then .error .NotOwner
      else if s.isProvider provider then
        .ok ({ s with isProvider := upd s.isProvider provider false },
             [.ProviderRemoved provider])
      else .ok (s, [])
  | .pause sender =>
      if sender ≠ s.owner then .error .NotOwner
      else if s.paused then .error .PausedError
      else .ok ({ s with paused := true }, [.Paused sender])
  | .unpause sender =>
      if sender ≠ s.owner then .error .NotOwner
      else .ok ({ s with paused := false }, [.Unpaused sender])
  | .setCooldownSeconds sender newCooldownSeconds =>
      if sender ≠ s.owner then .error .NotOwner
      else .ok ({ s with cooldownSeconds := newCooldownSeconds },
                [.CooldownSecondsSet s.cooldownSeconds newCooldownSeconds])
  | .openNewBatch sender =>
      if sender ≠ s.owner then .error .NotOwner
      else .ok ({ s with currentBatchId := s.currentBatchId + 1 },
                [.BatchOpened (s.currentBatchId + 1)])
  | .closeCurrentBatch sender =>
      if sender ≠ s.owner then .error .NotOwner
      else .ok ({ s with isBatchClosed := upd s.isBatchClosed s.currentBatchId true },
                [.BatchClosed s.currentBatchId])
  | .depositTime sender now amount =>
      if s.isProvider sender = false then .error .NotProvider
      else if s.paused then .error .PausedError
      else if now < s.lastSubmissionTime sender + s.cooldownSeconds then
        .error .CooldownActive
      else if s.isBatchClosed s.currentBatchId then .error .BatchClosedError
      else
        -- `_initIfNeeded`: `v.add(FHE.asEuint32(0))`, result discarded.
        .ok ({ s with lastSubmissionTime := upd s.lastSubmissionTime sender now },
             [.TimeDeposited sender s.currentBatchId (I.asEuint32 amount)])
  | .withdrawTime sender now amount =>
      if s.isProvider sender = false then .error .NotProvider
      else if s.paused then .error .PausedError
      else if now < s.lastSubmissionTime sender + s.cooldownSeconds then
        .error .CooldownActive
      else if s.isBatchClosed s.currentBatchId then .error .BatchClosedError
      else
        .ok ({ s with lastSubmissionTime := upd s.lastSubmissionTime sender now },
             [.TimeWithdrawn sender s.currentBatchId (I.asEuint32 amount)])
  | .requestBatchSummary sender now batchId =>
      if s.isProvider sender = false then .error .NotProvider
      else if s.paused then .error .PausedError
      else if now < s.lastDecryptionRequestTime sender + s.cooldownSeconds then
        .error .CooldownActive
      else if s.isBatchClosed batchId = false then .error .BatchNotClosed
      else
        let stateHash := requestStateHash I s.selfAddr
        let requestId := s.oracleNextRequestId
        .ok ({ s with
                decryptionContexts :=
                  upd s.decryptionContexts requestId
                    ⟨batchId, stateHash, false⟩,
                oracleNextRequestId := s.oracleNextRequestId + 1,
                lastDecryptionRequestTime :=
                  upd s.lastDecryptionRequestTime sender now },
             [.DecryptionRequested requestId batchId])
  | .myCallback requestId cleartexts proof =>
      let ctx := s.decryptionContexts requestId
      if ctx.processed then .error .ReplayError
      else if callbackStateHash I s.selfAddr ≠ ctx.stateHash then
        .error .StateMismatchError
      else if I.checkSignatures requestId cleartexts proof = false then
        .error .InvalidProof
      else if cleartexts.length ≠ 8 then .error .InvalidDecryption
      else
        .ok ({ s with
                decryptionContexts :=
                  upd s.decryptionContexts requestId
                    ⟨ctx.batchId, ctx.stateHash, true⟩ },
             [.DecryptionCompleted requestId ctx.batchId
                (decodeBE (cleartexts.take 4))
                (decodeBE ((cleartexts.drop 4).take 4))])

/-- The constructor: deployer becomes owner and first provider, batch 1 is
open, cooldown is 60 seconds. -/
def initState (deployer selfAddr : Nat) : State where
  owner := deployer
  isProvider := upd (fun _ => false) deployer true
  paused := false
  cooldownSeconds := 60
  lastSubmissionTime := fun _ => 0
  lastDecryptionRequestTime := fun _ => 0
  currentBatchId := 1
  isBatchClosed := fun _ => false
  decryptionContexts := fun _ => default
  selfAddr := selfAddr
  oracleNextRequestId := 0

/-- Run a sequence of external calls from a state; a reverted call leaves
the state unchanged and emits nothing, a successful call contributes its
events in order. -/
def run (I : FHEModel) (s : State) : List Op → State × List Event
  | [] => (s, [])
  | op :: ops =>
      match stepOp I s op with
      | .error _ => run I s ops
      | .ok (s', evs) =>
          let r := run I s' ops
          (r.1, evs ++ r.2)

/-- `isOpen(b)` from the design: `b == currentBatchId && !closed(b)`. -/
def isOpen (s : State) (b : Nat) : Prop :=
  b = s.currentBatchId ∧ s.isBatchClosed b = false

instance (s : State) (b : Nat) : Decidable (isOpen s b) := by
  unfold isOpen; infer_instance

/-- States reachable from deployment by any sequence of successful calls. -/
inductive Reachable (I : FHEModel) : State → Prop where
  | init (deployer selfAddr : Nat) : Reachable I (initState deployer selfAddr)
  | step {s : State} (op : Op) {s' : State} {evs : List Event} :
      Reachable I s → stepOp I s op = .ok (s', evs) → Reachable I s'

/-- A concrete instantiation of the external FHE surface, used to evaluate
the embedding on closed inputs: handles are the plaintexts themselves,
homomorphic addition is addition, and the hash is an encoding that is
never zero. -/
def testFHE : FHEModel where
  asEuint32 := fun n => n
  addH := fun a b => a + b
  isInitialized := fun _ => false
  toBytes32 := fun h => h
  keccakHash := fun cts a => (cts.foldl (fun h x => h * 257 + x) 1) * 1000 + a + 1
  checkSignatures := fun _ _ _ => true

/-- A freshly deployed contract: deployer `0`, contract address `7`,
batch `1` open. -/
def s0 : State := initState 0 7

/-- `s0` after the owner closes batch 1. -/
def sClosed : State := { s0 with isBatchClosed := upd s0.isBatchClosed 1 true }

/-- A state carrying a pending disclosure request whose stored commitment
(`999`) differs from the callback-side recomputed commitment. -/
def sMism : State :=
  { s0 with decryptionContexts := upd s0.decryptionContexts 0 ⟨1, 999, false⟩ }

/-- A different history: batch 1 closed, batch 2 opened, a deposit recorded
into it, batch 2 closed. -/
def sB : State :=
  (run testFHE s0 [.closeCurrentBatch 0, .openNewBatch 0, .depositTime 0 100 3,
    .closeCurrentBatch 0]).1

/-- Batch 1 closed and a summary requested for it: the pending disclosure
request has id 0 and a commitment matching the callback recomputation under
`testFHE`. -/
def sReq : State :=
  (run testFHE s0 [.closeCurrentBatch 0, .requestBatchSummary 0 100 1]).1

/-- Does this event publish cleartext totals for request id `r`? -/
def isCompletionFor (r : Nat) : Event → Bool
  | .DecryptionCompleted requestId _ _ _ => requestId == r
  | _ => false

/-- Number of `DecryptionCompleted` events for request id `r` in a log. -/
def countCompleted (r : Nat) (evs : List Event) : Nat :=
  evs.countP (isCompletionFor r)

/-- Request ids the FHE gateway has not yet handed out are unused: their
stored context is still the default record (in particular unprocessed, with
the zero commitment). -/
def CtxInv (s : State) : Prop :=
  ∀ r, s.oracleNextRequestId ≤ r → s.decryptionContexts r = ⟨0, 0, false⟩

/-- Successful `depositTime` calls are exactly characterized: all four gates
passed, the only storage write is the submission cooldown timestamp, and the
single event carries the encrypted handle and the current batch id. -/
theorem depositTime_ok (I : FHEModel) {s : State} {sender now amount : Nat}
    {s' : State} {evs : List Event}
    (h : stepOp I s (.depositTime sender now amount) = .ok (s', evs)) :
    s.isProvider sender = true ∧ s.paused = false
    ∧ s.lastSubmissionTime sender + s.cooldownSeconds ≤ now
    ∧ s.isBatchClosed s.currentBatchId = false
    ∧ s' = { s with lastSubmissionTime := upd s.lastSubmissionTime sender now }
    ∧ evs = [.TimeDeposited sender s.currentBatchId (I.asEuint32 amount)] := by
  simp only [stepOp] at h
  split_ifs at h with h1 h2 h3 h4
  simp only [Except.ok.injEq, Prod.mk.injEq] at h
  exact ⟨by simpa using h1, by simpa using h2, Nat.not_lt.mp h3,
    by simpa using h4, h.1.symm, h.2.symm⟩

/-- Successful `requestBatchSummary` calls are exactly characterized: all
four gates passed, and a fresh `DecryptionContext` carrying the batch id and
the request-side commitment is stored under the oracle-assigned id. -/
theorem requestSummary_ok (I : FHEModel) {s : State} {sender now batchId : Nat}
    {s' : State} {evs : List Event}
    (h : stepOp I s (.requestBatchSummary sender now batchId) = .ok (s', evs)) :
    s.isProvider sender = true ∧ s.paused = false
    ∧ s.lastDecryptionRequestTime sender + s.cooldownSeconds ≤ now
    ∧ s.isBatchClosed batchId = true
    ∧ s' = { s with
              decryptionContexts := upd s.decryptionContexts s.oracleNextRequestId
                ⟨batchId, requestStateHash I s.selfAddr, false⟩,
              oracleNextRequestId := s.oracleNextRequestId + 1,
              lastDecryptionRequestTime := upd s.lastDecryptionRequestTime sender now }
    ∧ evs = [.DecryptionRequested s.oracleNextRequestId batchId] := by
  simp only [stepOp] at h
  split_ifs at h with h1 h2 h3 h4
  simp only [Except.ok.injEq, Prod.mk.injEq] at h
  exact ⟨by simpa using h1, by simpa using h2, Nat.not_lt.mp h3,
    by simpa using h4, h.1.symm, h.2.symm⟩

/-- Successful `myCallback` calls are exactly characterized: the stored
request was unprocessed, the recomputed commitment matched, the proof
verified, the payload was exactly 8 bytes, the only storage write flips
`processed` to `true`, and the completion event carries the two decoded
32-bit totals. -/
theorem myCallback_ok (I : FHEModel) {s : State} {requestId : Nat}
    {cleartexts proof : List Nat} {s' : State} {evs : List Event}
    (h : stepOp I s (.myCallback requestId cleartexts proof) = .ok (s', evs)) :
    (s.decryptionContexts requestId).processed = false
    ∧ callbackStateHash I s.selfAddr = (s.decryptionContexts requestId).stateHash
    ∧ I.checkSignatures requestId cleartexts proof = true
    ∧ cleartexts.length = 8
    ∧ s' = { s with
              decryptionContexts := upd s.decryptionContexts requestId
                ⟨(s.decryptionContexts requestId).batchId,
                 (s.decryptionContexts requestId).stateHash, true⟩ }
    ∧ evs = [.DecryptionCompleted requestId (s.decryptionContexts requestId).batchId
        (decodeBE (cleartexts.take 4)) (decodeBE ((cleartexts.drop 4).take 4))] := by
  simp only [stepOp] at h
  split_ifs at h with h1 h2 h3 h4
  simp only [Except.ok.injEq, Prod.mk.injEq] at h
  exact ⟨by simpa using h1, by simpa using h2, by simpa using h3,
    by simpa using h4, h.1.symm, h.2.symm⟩

/-- Every successful step leaves the batch bookkeeping in one of three
shapes: untouched, one batch closed at the current id, or the current id
bumped with the closed set untouched. -/
theorem stepOp_batch_frame (I : FHEModel) {s s' : State} {op : Op}
    {evs : List Event} (h : stepOp I s op = .ok (s', evs)) :
    (s'.isBatchClosed = s.isBatchClosed ∨
       s'.isBatchClosed = upd s.isBatchClosed s.currentBatchId true) ∧
    (s'.currentBatchId = s.currentBatchId ∨
       s'.currentBatchId = s.currentBatchId + 1) ∧
    (s'.currentBatchId = s.currentBatchId + 1 → s'.isBatchClosed = s.isBatchClosed) := by
  cases op <;>
    simp only [stepOp] at h <;>
    split_ifs at h <;>
    first
      | exact Except.noConfusion h
      | (simp only [Except.ok.injEq, Prod.mk.injEq] at h
         obtain ⟨rfl, rfl⟩ := h
         simp)

/-- In every reachable state the closed batch ids are bounded by the
current batch id; hence `openNewBatch` always yields a never-closed id. -/
theorem reachable_closed_le_current (I : FHEModel) {s : State}
    (h : Reachable I s) : ∀ b, s.isBatchClosed b = true → b ≤ s.currentBatchId := by
  induction h with
  | init deployer selfAddr => intro b hb; simp [initState] at hb
  | step op hr hok ih =>
      obtain ⟨hc, hid, himp⟩ := stepOp_batch_frame _ hok
      intro b hb
      rcases hid with hid | hid
      · rw [hid]
        rcases hc with hc | hc
        · exact ih b (hc ▸ hb)
        · rw [hc] at hb
          unfold upd at hb
          split_ifs at hb with hbe
          · exact hbe.le
          · exact ih b hb
      · rw [hid]
        rw [himp hid] at hb
        exact (ih b hb).trans (Nat.le_succ _)

/--
Counterexample to C2 as stated: `closeCurrentBatch` does not open a
replacement batch, so immediately after the owner closes batch 1 of a fresh
deployment the reachable state `sClosed` has *no* Open batch at all —
"exactly one batch is Open in every reachable state" fails.
-/
theorem no_open_batch_after_close :
    stepOp testFHE s0 (.closeCurrentBatch 0) = .ok (sClosed, [.BatchClosed 1])
    ∧ Reachable testFHE sClosed
    ∧ ∀ b, ¬ isOpen sClosed b := by
  refine ⟨rfl, Reachable.step (.closeCurrentBatch 0) (Reachable.init 0 7) rfl, ?_⟩
  rintro b ⟨rfl, hc⟩
  simp [sClosed, s0, initState, upd] at hc

/--
C2 (amended).  In every reachable state *at most* one batch is Open, and a
batch is Open exactly when it is the current batch and the current batch
has not been closed; `openNewBatch` always restores exactly one Open batch
(the incremented id is never already closed), while after
`closeCurrentBatch` no batch is Open until the owner opens a new one.
-/
theorem at_most_one_open_batch (I : FHEModel) (s : State)
    (h : Reachable I s) :
    (∀ b b', isOpen s b → isOpen s b' → b = b')
    ∧ ((∃ b, isOpen s b) ↔ s.isBatchClosed s.currentBatchId = false)
    ∧ (∀ sender s' evs, stepOp I s (.openNewBatch sender) = .ok (s', evs) →
        ∃! b, isOpen s' b)
    ∧ (∀ sender s' evs, stepOp I s (.closeCurrentBatch sender) = .ok (s', evs) →
        ∀ b, ¬ isOpen s' b) := by
  refine ⟨?_, ?_, ?_, ?_⟩
  · rintro b b' ⟨rfl, -⟩ ⟨rfl, -⟩; rfl
  · constructor
    · rintro ⟨b, rfl, hb⟩; exact hb
    · intro hb; exact ⟨s.currentBatchId, rfl, hb⟩
  · intro sender s' evs hok
    simp only [stepOp] at hok
    split_ifs at hok
    simp only [Except.ok.injEq, Prod.mk.injEq] at hok
    obtain ⟨rfl, rfl⟩ := hok
    refine ⟨s.currentBatchId + 1, ⟨rfl, ?_⟩, ?_⟩
    · by_contra hcl
      have hb : s.isBatchClosed (s.currentBatchId + 1) = true := by
        simpa using hcl
      exact absurd (reachable_closed_le_current I h _ hb) (by omega)
    · rintro b ⟨rfl, -⟩; rfl
  · intro sender s' evs hok
    simp only [stepOp] at hok
    split_ifs at hok
    simp only [Except.ok.injEq, Prod.mk.injEq] at hok
    obtain ⟨rfl, rfl⟩ := hok
    rintro b ⟨rfl, hb⟩
    simp [upd] at hb

/-- Witness for C2 (amended), at the freshly deployed state. -/
theorem at_most_one_open_batch_witness :
    (∀ b b', isOpen s0 b → isOpen s0 b' → b = b')
    ∧ ((∃ b, isOpen s0 b) ↔ s0.isBatchClosed s0.currentBatchId = false)
    ∧ (∀ sender s' evs, stepOp testFHE s0 (.openNewBatch sender) = .ok (s', evs) →
        ∃! b, isOpen s' b)
    ∧ (∀ sender s' evs, stepOp testFHE s0 (.closeCurrentBatch sender) = .ok (s', evs) →
        ∀ b, ¬ isOpen s' b) :=
  at_most_one_open_batch testFHE s0 (Reachable.init 0 7)

/--
C1.  What an accepted `depositTime(3)` actually does on a fresh deployment:
it emits `TimeDeposited` carrying the encrypted handle (`FHE.asEuint32 3`,
never the plaintext in an aggregate) and the current batch id, and updates
the caller's submission cooldown timestamp — and changes nothing else.  The
contract has no `totalDeposited`/`totalWithdrawn` storage at all, so no
homomorphic addition into a running batch aggregate takes place; its own
comments call the aggregation step a placeholder (`requestBatchSummary`
lines 972-975, `_initIfNeeded` lines 1043-1045).
-/
theorem depositTime_emits_but_keeps_no_aggregate :
    stepOp testFHE s0 (.depositTime 0 100 3) =
      .ok ({ s0 with lastSubmissionTime := upd s0.lastSubmissionTime 0 100 },
           [.TimeDeposited 0 1 3]) := by
  rfl

/--
Counterexample to C6 as stated: with the current batch closed, a
`depositTime` call is *not* always rejected with `BatchClosed` — the
authorization gate runs first, so a non-provider caller is rejected with
`NotProvider` instead.
-/
theorem deposit_on_closed_batch_not_always_batch_closed :
    sClosed.isBatchClosed sClosed.currentBatchId = true
    ∧ stepOp testFHE sClosed (.depositTime 5 100 3) = .error .NotProvider :=
  ⟨rfl, rfl⟩

/--
C6 (amended).  Once a batch is closed it stays closed under every
successful operation; while the current batch is closed no `depositTime`
or `withdrawTime` call ever succeeds (so, reverting, every such call leaves
the batch bookkeeping and all other state unchanged), and a call that
passes the provider, pause and cooldown gates is rejected precisely with
`BatchClosed`.
-/
theorem closed_stays_closed_and_blocks_submissions (I : FHEModel) :
    (∀ s op s' evs, stepOp I s op = .ok (s', evs) →
        ∀ b, s.isBatchClosed b = true → s'.isBatchClosed b = true)
    ∧ (∀ s sender now amount, s.isBatchClosed s.currentBatchId = true →
        (∀ s' evs, stepOp I s (.depositTime sender now amount) ≠ .ok (s', evs))
        ∧ (∀ s' evs, stepOp I s (.withdrawTime sender now amount) ≠ .ok (s', evs))
        ∧ (s.isProvider sender = true → s.paused = false →
            s.lastSubmissionTime sender + s.cooldownSeconds ≤ now →
            stepOp I s (.depositTime sender now amount) = .error .BatchClosedError
            ∧ stepOp I s (.withdrawTime sender now amount) = .error .BatchClosedError)) := by
  constructor
  · intro s op s' evs hok b hb
    obtain ⟨hc, -, -⟩ := stepOp_batch_frame I hok
    rcases hc with hc | hc
    · rw [hc]; exact hb
    · rw [hc]; unfold upd; split_ifs <;> simp [hb]
  · intro s sender now amount hclosed
    refine ⟨?_, ?_, ?_⟩
    · intro s' evs hok
      exact absurd (depositTime_ok I hok).2.2.2.1 (by simp [hclosed])
    · intro s' evs hok
      simp only [stepOp] at hok
      split_ifs at hok
    · intro h1 h2 h3
      constructor <;> simp [stepOp, h1, h2, hclosed, Nat.not_lt.mpr h3]

/-- Witness for C6 (amended): on `sClosed` (batch 1 closed), the deployer —
a provider, unpaused, cooldown long passed — is rejected with
`BatchClosed`. -/
theorem closed_stays_closed_and_blocks_submissions_witness :
    stepOp testFHE sClosed (.depositTime 0 100 3) = .error .BatchClosedError
    ∧ stepOp testFHE sClosed (.withdrawTime 0 100 3) = .error .BatchClosedError :=
  ((closed_stays_closed_and_blocks_submissions testFHE).2 sClosed 0 100 3 rfl).2.2
    rfl rfl (by decide)

/--
Counterexample to C7 as stated: an action that passes the rate limiter does
*not* always get its timestamp recorded — on `sClosed` the deployer's
cooldown has passed (`¬ 100 < 0 + 60`), yet `depositTime` reverts at the
batch gate with `BatchClosedError`, so no new last-action time is recorded
(a revert rolls every write back).
-/
theorem cooldown_pass_can_record_nothing :
    ¬ (100 < sClosed.lastSubmissionTime 0 + sClosed.cooldownSeconds)
    ∧ stepOp testFHE sClosed (.depositTime 0 100 3) = .error .BatchClosedError :=
  ⟨by decide, rfl⟩

/--
C7 (amended).  For each account and action class, an action attempted (by a
provider, unpaused — the earlier gates) at time `now` with
`now < lastRecorded + cooldownSeconds` fails with `CooldownActive` and
records nothing; otherwise it passes the rate limiter, and when the whole
action is accepted, `now` is recorded as the account's new last-action time
for that class.  Consequently a second action in the same class within
`cooldownSeconds` of an accepted one is rejected with `CooldownActive`,
and one attempted after `cooldownSeconds` have elapsed succeeds (the
remaining batch gate being unchanged by the first action).
-/
theorem cooldown_gate (I : FHEModel) (s : State) (sender now : Nat)
    (hp : s.isProvider sender = true) (hnp : s.paused = false) :
    (now < s.lastSubmissionTime sender + s.cooldownSeconds →
        ∀ amount, stepOp I s (.depositTime sender now amount) = .error .CooldownActive
          ∧ stepOp I s (.withdrawTime sender now amount) = .error .CooldownActive)
    ∧ (∀ amount s' evs, stepOp I s (.depositTime sender now amount) = .ok (s', evs) →
        s'.lastSubmissionTime sender = now)
    ∧ (now < s.lastDecryptionRequestTime sender + s.cooldownSeconds →
        ∀ batchId, stepOp I s (.requestBatchSummary sender now batchId) =
          .error .CooldownActive)
    ∧ (∀ batchId s' evs,
        stepOp I s (.requestBatchSummary sender now batchId) = .ok (s', evs) →
        s'.lastDecryptionRequestTime sender = now)
    ∧ (∀ amount s' evs, stepOp I s (.depositTime sender now amount) = .ok (s', evs) →
        ∀ t2 amount2,
          (t2 < now + s.cooldownSeconds →
            stepOp I s' (.depositTime sender t2 amount2) = .error .CooldownActive)
          ∧ (now + s.cooldownSeconds ≤ t2 →
            ∃ s'' evs'', stepOp I s' (.depositTime sender t2 amount2) =
              .ok (s'', evs''))) := by
  refine ⟨?_, ?_, ?_, ?_, ?_⟩
  · intro hcd amount
    constructor <;> simp [stepOp, hp, hnp, hcd]
  · intro amount s' evs hok
    rw [(depositTime_ok I hok).2.2.2.2.1]
    simp [upd]
  · intro hcd batchId
    simp [stepOp, hp, hnp, hcd]
  · intro batchId s' evs hok
    rw [(requestSummary_ok I hok).2.2.2.2.1]
    simp [upd]
  · intro amount s' evs hok t2 amount2
    obtain ⟨-, -, -, hopen, rfl, -⟩ := depositTime_ok I hok
    constructor
    · intro ht2
      simp [stepOp, hp, hnp, upd, ht2]
    · intro ht2
      refine ⟨{ s with lastSubmissionTime := upd (upd s.lastSubmissionTime sender now) sender t2 }, [.TimeDeposited sender s.currentBatchId (I.asEuint32 amount2)], ?_⟩
      simp [stepOp, hp, hnp, hopen, upd, Nat.not_lt.mpr ht2]

/-- Witness for C7 (amended): the deployer's deposit at `t = 100` is
accepted; a second deposit at `t = 130 < 100 + 60` is rejected with
`CooldownActive`, one at `t = 160` succeeds. -/
theorem cooldown_gate_witness :
    (stepOp testFHE { s0 with lastSubmissionTime := upd s0.lastSubmissionTime 0 100 }
        (.depositTime 0 130 4) = .error .CooldownActive)
    ∧ ∃ s'' evs'',
        stepOp testFHE { s0 with lastSubmissionTime := upd s0.lastSubmissionTime 0 100 }
          (.depositTime 0 160 4) = .ok (s'', evs'') :=
  ⟨(((cooldown_gate testFHE s0 0 100 rfl rfl).2.2.2.2 3 _ _ rfl) 130 4).1 (by decide),
   (((cooldown_gate testFHE s0 0 100 rfl rfl).2.2.2.2 3 _ _ rfl) 160 4).2 (by decide)⟩

/--
C9.  `requestBatchSummary(batchId)` succeeds only when the caller is a
provider, the system is not paused, the disclosure-class cooldown has
passed, and `batchId` is closed; and when the earlier gates pass but
`batchId` is not closed — in particular for the still-open current batch —
it fails with `BatchNotClosed` (and, reverting, changes no state).
-/
theorem requestBatchSummary_requires_closed_batch (I : FHEModel) (s : State)
    (sender now batchId : Nat) :
    (∀ s' evs, stepOp I s (.requestBatchSummary sender now batchId) = .ok (s', evs) →
        s.isProvider sender = true ∧ s.paused = false ∧
        s.lastDecryptionRequestTime sender + s.cooldownSeconds ≤ now ∧
        s.isBatchClosed batchId = true)
    ∧ (s.isProvider sender = true → s.paused = false →
        s.lastDecryptionRequestTime sender + s.cooldownSeconds ≤ now →
        s.isBatchClosed batchId = false →
        stepOp I s (.requestBatchSummary sender now batchId) = .error .BatchNotClosed) := by
  constructor
  · intro s' evs h
    simp only [stepOp] at h
    split_ifs at h with h1 h2 h3 h4
    refine ⟨by simpa using h1, by simpa using h2, Nat.not_lt.mp h3, by simpa using h4⟩
  · intro h1 h2 h3 h4
    simp [stepOp, h1, h2, h4, Nat.not_lt.mpr h3]

/-- Witness for C9: on the fresh deployment, the deployer (a provider, not
paused, cooldown passed) asking for a summary of the still-open batch 1 is
rejected with `BatchNotClosed`. -/
theorem requestBatchSummary_requires_closed_batch_witness :
    stepOp testFHE s0 (.requestBatchSummary 0 100 1) = .error .BatchNotClosed :=
  (requestBatchSummary_requires_closed_batch testFHE s0 0 100 1).2
    rfl rfl (by decide) rfl

/--
C4.  `requestBatchSummary` stores as commitment the hash of the ciphertext
array in the fixed `[totalDeposited, totalWithdrawn]` order (`requestCts`)
together with the ledger's own address; `myCallback` recomputes the
commitment over the re-derived array in the same order (`callbackCts`,
inside `callbackStateHash`) and fails with `StateMismatch` whenever the
recomputed commitment differs from the stored one — even when the
accompanying proof verifies, since the commitment check precedes proof
verification.
-/
theorem commitment_binds_snapshot (I : FHEModel) (s : State) :
    (∀ sender now batchId s' evs,
        stepOp I s (.requestBatchSummary sender now batchId) = .ok (s', evs) →
        s'.decryptionContexts s.oracleNextRequestId =
          ⟨batchId, I.keccakHash (requestCts I) s.selfAddr, false⟩)
    ∧ (∀ requestId cleartexts proof,
        (s.decryptionContexts requestId).processed = false →
        I.checkSignatures requestId cleartexts proof = true →
        callbackStateHash I s.selfAddr ≠ (s.decryptionContexts requestId).stateHash →
        stepOp I s (.myCallback requestId cleartexts proof) =
          .error .StateMismatchError) := by
  constructor
  · intro sender now batchId s' evs hok
    rw [(requestSummary_ok I hok).2.2.2.2.1]
    simp [upd, requestStateHash]
  · intro requestId cleartexts proof hproc hsig hne
    simp [stepOp, hproc, hne]

/-- Witness for C4: on `sMism` the callback carries a valid proof, yet is
rejected with `StateMismatch` because the recomputed commitment differs
from the stored `999`. -/
theorem commitment_binds_snapshot_witness :
    stepOp testFHE sMism (.myCallback 0 [1, 2, 3] [9]) = .error .StateMismatchError :=
  (commitment_binds_snapshot testFHE sMism).2 0 [1, 2, 3] [9] rfl rfl (by decide)

/--
C5.  The commitment stored by any two accepted `requestBatchSummary`
calls is the same value, whatever the batch ids and whatever operations
either contract has recorded: the hashed ciphertext array is rebuilt from
freshly zero-initialized locals (`requestCts` does not read the state), so
the commitment depends only on the FHE interface and the contract's own
address.
-/
theorem stateHash_independent_of_history (I : FHEModel)
    (s₁ s₂ : State) (hself : s₁.selfAddr = s₂.selfAddr)
    (sender₁ now₁ batchId₁ sender₂ now₂ batchId₂ : Nat)
    {s₁' s₂' : State} {evs₁ evs₂ : List Event}
    (h₁ : stepOp I s₁ (.requestBatchSummary sender₁ now₁ batchId₁) = .ok (s₁', evs₁))
    (h₂ : stepOp I s₂ (.requestBatchSummary sender₂ now₂ batchId₂) = .ok (s₂', evs₂)) :
    (s₁'.decryptionContexts s₁.oracleNextRequestId).stateHash =
      (s₂'.decryptionContexts s₂.oracleNextRequestId).stateHash := by
  rw [(requestSummary_ok I h₁).2.2.2.2.1, (requestSummary_ok I h₂).2.2.2.2.1]
  simp [upd, requestStateHash, hself]

/-- Witness for C5: a summary request for batch 1 on the plain closed state
and one for batch 2 after a different history store the same commitment. -/
theorem stateHash_independent_of_history_witness :
    ((run testFHE sClosed [.requestBatchSummary 0 100 1]).1.decryptionContexts
        sClosed.oracleNextRequestId).stateHash =
      ((run testFHE sB [.requestBatchSummary 0 200 2]).1.decryptionContexts
        sB.oracleNextRequestId).stateHash :=
  stateHash_independent_of_history testFHE sClosed sB rfl 0 100 1 0 200 2 rfl rfl

/--
C8.  A disclosure callback that passes the replay, commitment and proof
checks fails with `InvalidDecryption` whenever its `cleartexts` payload is
not exactly 8 bytes (two 32-bit unsigned integers); with exactly 8 bytes
the request is marked processed and the completion event carries the
request id, the stored batch id, `totalDeposited` decoded big-endian from
the first 4 bytes and `totalWithdrawn` from the next 4.
-/
theorem callback_decodes_two_uint32 (I : FHEModel) (s : State)
    (requestId : Nat) (cleartexts proof : List Nat)
    (hproc : (s.decryptionContexts requestId).processed = false)
    (hhash : callbackStateHash I s.selfAddr = (s.decryptionContexts requestId).stateHash)
    (hsig : I.checkSignatures requestId cleartexts proof = true) :
    (cleartexts.length ≠ 8 →
        stepOp I s (.myCallback requestId cleartexts proof) =
          .error .InvalidDecryption)
    ∧ (cleartexts.length = 8 →
        stepOp I s (.myCallback requestId cleartexts proof) =
          .ok ({ s with decryptionContexts := (upd s.decryptionContexts requestId
                  ⟨(s.decryptionContexts requestId).batchId,
                   (s.decryptionContexts requestId).stateHash, true⟩) },
               [.DecryptionCompleted requestId (s.decryptionContexts requestId).batchId
                  (decodeBE (cleartexts.take 4))
                  (decodeBE ((cleartexts.drop 4).take 4))])) := by
  constructor <;> intro hlen <;> simp [stepOp, hproc, hhash, hsig, hlen]

/-- Witness for C8: on `sReq`, an 8-byte payload `[0,0,0,5,0,0,0,0]`
completes the request and emits totals `(5, 0)`; the processed flag flips
to `true`. -/
theorem callback_decodes_two_uint32_witness :
    stepOp testFHE sReq (.myCallback 0 [0, 0, 0, 5, 0, 0, 0, 0] [1]) =
      .ok ({ sReq with decryptionContexts := (upd sReq.decryptionContexts 0
              ⟨(sReq.decryptionContexts 0).batchId,
               (sReq.decryptionContexts 0).stateHash, true⟩) },
           [.DecryptionCompleted 0 (sReq.decryptionContexts 0).batchId
              (decodeBE ([0, 0, 0, 5, 0, 0, 0, 0].take 4))
              (decodeBE (([0, 0, 0, 5, 0, 0, 0, 0].drop 4).take 4))]) :=
  (callback_decodes_two_uint32 testFHE sReq 0 [0, 0, 0, 5, 0, 0, 0, 0] [1]
    rfl rfl rfl).2 rfl

/--
C10.  `addProvider` / `removeProvider`, called by the owner, are
idempotent: when the membership is already as requested the call is a no-op
returning the unchanged state and emitting no event; otherwise it flips the
membership and emits exactly one `ProviderAdded`/`ProviderRemoved` event,
and running the same operation again returns that state unchanged with no
event — so twice in a row equals once.
-/
theorem provider_ops_idempotent (I : FHEModel) (s : State) (p : Nat) :
    (s.isProvider p = true → stepOp I s (.addProvider s.owner p) = .ok (s, []))
    ∧ (s.isProvider p = false →
        ∃ s', stepOp I s (.addProvider s.owner p) = .ok (s', [.ProviderAdded p])
          ∧ s'.isProvider p = true
          ∧ stepOp I s' (.addProvider s.owner p) = .ok (s', []))
    ∧ (s.isProvider p = false → stepOp I s (.removeProvider s.owner p) = .ok (s, []))
    ∧ (s.isProvider p = true →
        ∃ s', stepOp I s (.removeProvider s.owner p) = .ok (s', [.ProviderRemoved p])
          ∧ s'.isProvider p = false
          ∧ stepOp I s' (.removeProvider s.owner p) = .ok (s', [])) := by
  refine ⟨fun h => ?_, fun h => ?_, fun h => ?_, fun h => ?_⟩
  · simp [stepOp, h]
  · refine ⟨{ s with isProvider := upd s.isProvider p true }, ?_, ?_, ?_⟩
    · simp [stepOp, h]
    · simp [upd]
    · simp [stepOp, upd]
  · simp [stepOp, h]
  · refine ⟨{ s with isProvider := upd s.isProvider p false }, ?_, ?_, ?_⟩
    · simp [stepOp, h]
    · simp [upd]
    · simp [stepOp, upd]

/-- Witness for C10: on the fresh deployment, adding the non-provider `5`
emits one event and yields a state on which adding `5` again is a no-op. -/
theorem provider_ops_idempotent_witness :
    s0.isProvider 5 = false ∧
    ∃ s', stepOp testFHE s0 (.addProvider s0.owner 5) = .ok (s', [.ProviderAdded 5])
      ∧ s'.isProvider 5 = true
      ∧ stepOp testFHE s' (.addProvider s0.owner 5) = .ok (s', []) :=
  ⟨rfl, (provider_ops_idempotent testFHE s0 5).2.1 rfl⟩

theorem countCompleted_append (r : Nat) (a b : List Event) :
    countCompleted r (a ++ b) = countCompleted r a + countCompleted r b := by
  simp [countCompleted, List.countP_append]

/-- One successful step preserves `CtxInv` (assuming the hash is never the
default zero word), never clears a `processed` flag, and adds a completion
event for id `r` only by flipping `r`'s `processed` flag from `false` to
`true`. -/
theorem stepOp_ctx (I : FHEModel) (hk : ∀ cts a, I.keccakHash cts a ≠ 0)
    {s s' : State} {op : Op} {evs : List Event}
    (h : stepOp I s op = .ok (s', evs)) (hinv : CtxInv s) :
    CtxInv s'
    ∧ (∀ r, (s.decryptionContexts r).processed = true →
        (s'.decryptionContexts r).processed = true)
    ∧ (∀ r, countCompleted r evs +
        (if (s.decryptionContexts r).processed then 1 else 0) ≤
        (if (s'.decryptionContexts r).processed then 1 else 0)) := by
  cases op
  case requestBatchSummary sender now batchId =>
    obtain ⟨-, -, -, -, rfl, rfl⟩ := requestSummary_ok I h
    refine ⟨?_, ?_, ?_⟩
    · intro r hr
      have hr' : s.oracleNextRequestId + 1 ≤ r := hr
      have hne : ¬ r = s.oracleNextRequestId := by omega
      simpa [upd, hne] using hinv r (by omega)
    · intro r hp
      by_cases he : r = s.oracleNextRequestId
      · exfalso
        rw [he, hinv s.oracleNextRequestId (le_refl _)] at hp
        exact Bool.noConfusion hp
      · simpa [upd, he] using hp
    · intro r
      by_cases he : r = s.oracleNextRequestId
      · simp [upd, he, countCompleted, isCompletionFor,
          hinv s.oracleNextRequestId (le_refl _)]
      · simp [upd, he, countCompleted, isCompletionFor]
  case myCallback requestId cleartexts proof =>
    obtain ⟨hproc, hhash, -, -, rfl, rfl⟩ := myCallback_ok I h
    have hlt : requestId < s.oracleNextRequestId := by
      by_contra hge
      rw [hinv requestId (Nat.le_of_not_lt hge)] at hhash
      exact hk (callbackCts I) s.selfAddr (by simpa [callbackStateHash] using hhash)
    refine ⟨?_, ?_, ?_⟩
    · intro r hr
      have hr' : s.oracleNextRequestId ≤ r := hr
      have hne : ¬ r = requestId := by omega
      simpa [upd, hne] using hinv r hr'
    · intro r hp
      by_cases he : r = requestId
      · subst he
        simp [upd]
      · simpa [upd, he] using hp
    · intro r
      by_cases he : r = requestId
      · subst he
        simp [upd, countCompleted, isCompletionFor, hproc]
      · simp [upd, he, countCompleted, isCompletionFor, Ne.symm he]
  all_goals
    simp only [stepOp] at h
    split_ifs at h <;>
    first
      | exact Except.noConfusion h
      | (simp only [Except.ok.injEq, Prod.mk.injEq] at h
         obtain ⟨rfl, rfl⟩ := h
         exact ⟨hinv, fun r hp => hp,
           fun r => by simp [countCompleted, isCompletionFor]⟩)

/-- Along any run, `CtxInv` is maintained and the number of completion
events for any request id, plus one if the id started processed, never
exceeds the final `processed` bit for that id. -/
theorem run_ctx (I : FHEModel) (hk : ∀ cts a, I.keccakHash cts a ≠ 0) :
    ∀ (ops : List Op) (s : State), CtxInv s →
      CtxInv (run I s ops).1
      ∧ ∀ r, countCompleted r (run I s ops).2 +
          (if (s.decryptionContexts r).processed then 1 else 0) ≤
          (if ((run I s ops).1.decryptionContexts r).processed then 1 else 0) := by
  intro ops
  induction ops with
  | nil =>
      intro s hinv
      exact ⟨hinv, fun r => by simp [run, countCompleted]⟩
  | cons op ops ih =>
      intro s hinv
      cases hstep : stepOp I s op with
      | error e =>
          have hrw : run I s (op :: ops) = run I s ops := by
            simp [run, hstep]
          rw [hrw]
          exact ih s hinv
      | ok pr =>
          obtain ⟨s', evs⟩ := pr
          obtain ⟨hinv', hmono, hcount⟩ := stepOp_ctx I hk hstep hinv
          obtain ⟨hinv'', hcount'⟩ := ih s' hinv'
          have hrw : run I s (op :: ops) =
              ((run I s' ops).1, evs ++ (run I s' ops).2) := by
            simp [run, hstep]
          rw [hrw]
          refine ⟨hinv'', fun r => ?_⟩
          have h1 := hcount r
          have h2 := hcount' r
          simp only [countCompleted_append]
          omega

/-- Every reachable state satisfies `CtxInv`. -/
theorem reachable_ctxInv (I : FHEModel) (hk : ∀ cts a, I.keccakHash cts a ≠ 0)
    {s : State} (h : Reachable I s) : CtxInv s := by
  induction h with
  | init deployer selfAddr => intro r _; rfl
  | step op hr hok ih => exact (stepOp_ctx I hk hok ih).1

/--
C3.  Disclosure callbacks are replay-protected (assuming the keccak
commitment is never the default zero word): over any run from deployment
the cleartext completion event is emitted at most once per request id;
whenever a reachable state has a request already marked processed, any
later callback for that id fails with `ReplayRejected`; and no successful
operation ever clears a `processed` flag, so it transitions `false → true`
at most once and never reverts.
-/
theorem disclosure_replay_protection (I : FHEModel)
    (hk : ∀ cts a, I.keccakHash cts a ≠ 0)
    (deployer selfAddr : Nat) (ops : List Op) (r : Nat) :
    countCompleted r (run I (initState deployer selfAddr) ops).2 ≤ 1
    ∧ (∀ s cleartexts proof, Reachable I s →
        (s.decryptionContexts r).processed = true →
        stepOp I s (.myCallback r cleartexts proof) = .error .ReplayError)
    ∧ (∀ s op s' evs, Reachable I s → stepOp I s op = .ok (s', evs) →
        (s.decryptionContexts r).processed = true →
        (s'.decryptionContexts r).processed = true) := by
  refine ⟨?_, ?_, ?_⟩
  · have hinv : CtxInv (initState deployer selfAddr) := fun r _ => rfl
    have h := (run_ctx I hk ops _ hinv).2 r
    have hbit : (if ((initState deployer selfAddr).decryptionContexts r).processed
        then 1 else 0) = 0 := rfl
    rw [hbit] at h
    split_ifs at h <;> omega
  · intro s cleartexts proof _ hproc
    simp [stepOp, hproc]
  · intro s op s' evs hreach hok hproc
    exact (stepOp_ctx I hk hok (reachable_ctxInv I hk hreach)).2.1 r hproc

/-- Witness for C3: a run that closes batch 1, requests its summary
(request id 0) and then delivers the same oracle callback twice; the
completion event for id 0 is emitted at most once. -/
theorem disclosure_replay_protection_witness :
    countCompleted 0 (run testFHE (initState 0 7)
        [.closeCurrentBatch 0, .requestBatchSummary 0 100 1,
         .myCallback 0 [0, 0, 0, 5, 0, 0, 0, 0] [1],
         .myCallback 0 [0, 0, 0, 5, 0, 0, 0, 0] [1]]).2 ≤ 1
    ∧ (∀ s cleartexts proof, Reachable testFHE s →
        (s.decryptionContexts 0).processed = true →
        stepOp testFHE s (.myCallback 0 cleartexts proof) = .error .ReplayError)
    ∧ (∀ s op s' evs, Reachable testFHE s → stepOp testFHE s op = .ok (s', evs) →
        (s.decryptionContexts 0).processed = true →
        (s'.decryptionContexts 0).processed = true) :=
  disclosure_replay_protection testFHE (fun _ _ => Nat.succ_ne_zero _) 0 7
    [.closeCurrentBatch 0, .requestBatchSummary 0 100 1,
     .myCallback 0 [0, 0, 0, 5, 0, 0, 0, 0] [1],
     .myCallback 0 [0, 0, 0, 5, 0, 0, 0, 0] [1]] 0

end TimeBankFHE
